import Mathlib

set_option maxHeartbeats 1000000

/-!
Verification development for the hwasung-parking repository.

The event store (src/database.js) keeps an append-only SQLite table
`vehicle_movements` with a UNIQUE(plate_number, movement_time, movement_type)
constraint; occupancy is derived from the log by SQL queries.  We embed the
table as a list of rows and each query as a Lean function following the SQL
text.  Timestamps are `DATETIME` strings (`YYYY-MM-DD HH:MM:SS`); SQLite
compares TEXT by code point, modelled by an explicit lexicographic comparator.
-/

namespace HwasungParking

/-- A row of the `vehicle_movements` table (src/database.js).
`raw_data`, `id` and `created_at` are not read by any derivation query and are
omitted. -/
structure Movement where
  plateNumber : String
  movementType : String
  movementTime : String
  location : Option String := Option.none
  cardType : Option String := Option.none
deriving DecidableEq, Repr

/-- `'입차'`, the ENTRY marker produced by `parseMovementType`. -/
def entryType : String := "입차"

/-- `'출차'`, the EXIT marker produced by `parseMovementType`. -/
def exitType : String := "출차"

/-- Code-point lexicographic strict order on char lists (SQLite TEXT `<`). -/
def strLtB : List Char → List Char → Bool
  | [], [] => false
  | [], _ :: _ => true
  | _ :: _, [] => false
  | a :: as, b :: bs =>
    if a.toNat < b.toNat then true
    else if b.toNat < a.toNat then false
    else strLtB as bs

/-- SQLite TEXT comparison `a < b` on DATETIME strings. -/
def timeLtB (a b : String) : Bool := strLtB a.data b.data

/-- Running maximum of timestamps, used to embed `MAX(movement_time)`. -/
def maxTimeAux (t : String) : List String → String
  | [] => t
  | u :: us => maxTimeAux (if timeLtB t u then u else t) us

/-- The ENTRY (`'입차'`) timestamps of a plate, from
`SELECT movement_time FROM vehicle_movements WHERE movement_type = '입차' AND plate_number = p`. -/
def entryTimes (log : List Movement) (p : String) : List String :=
  (log.filter (fun e => decide (e.plateNumber = p) && decide (e.movementType = entryType))).map
    (fun e => e.movementTime)

/-- `MAX(movement_time)` over a plate's ENTRY events (the `latest` subquery of
`getParkedVehicles`); `none` when the plate has no ENTRY event. -/
def maxEntryTime (log : List Movement) (p : String) : Option String :=
  match entryTimes log p with
  | [] => Option.none
  | t :: ts => some (maxTimeAux t ts)

/-- The `NOT EXISTS` subquery of `getParkedVehicles`: an EXIT (`'출차'`) event of
the same plate with `movement_time` strictly greater. -/
def hasLaterExit (log : List Movement) (p t : String) : Bool :=
  log.any (fun e =>
    decide (e.plateNumber = p) && decide (e.movementType = exitType)
      && timeLtB t e.movementTime)

/-- Row predicate of the `getParkedVehicles` query (src/database.js:87-113):
an ENTRY row at its plate's maximal ENTRY time, with no strictly later EXIT. -/
def isParkedRow (log : List Movement) (v : Movement) : Bool :=
  decide (v.movementType = entryType)
    && decide (maxEntryTime log v.plateNumber = some v.movementTime)
    && !hasLaterExit log v.plateNumber v.movementTime

/-- The selected rows of the `getParkedVehicles` query, before `ORDER BY`. -/
def parkedRows (log : List Movement) : List Movement :=
  log.filter (isParkedRow log)

/-- Insertion step for `ORDER BY movement_time DESC`. -/
def insertDesc (x : Movement) : List Movement → List Movement
  | [] => [x]
  | y :: ys => if timeLtB x.movementTime y.movementTime then y :: insertDesc x ys else x :: y :: ys

/-- Sort by `movement_time` descending (`ORDER BY v.movement_time DESC`). -/
def sortDesc : List Movement → List Movement
  | [] => []
  | x :: xs => insertDesc x (sortDesc xs)

/-- `getParkedVehicles()` of src/database.js: derivation query result, ordered
by most-recent entry first.  (`parking_hours`, a wall-clock projection of
`entry_time`, is not modelled.) -/
def getParkedVehicles (log : List Movement) : List Movement :=
  sortDesc (parkedRows log)

/-- Spec §3 "Derived ParkedState", stated from the spec's words: `lastEntry`
is an ENTRY event of plate `p` with maximal `occurredAt`. -/
def specLastEntry (log : List Movement) (p : String) (e : Movement) : Prop :=
  e ∈ log ∧ e.plateNumber = p ∧ e.movementType = entryType ∧
    ∀ e₂ ∈ log, e₂.plateNumber = p → e₂.movementType = entryType →
      timeLtB e.movementTime e₂.movementTime = false

/-- Spec §3: P is currently parked iff `lastEntry` exists and no EXIT event of
P has `occurredAt` strictly greater than `lastEntry.occurredAt`. -/
def specCurrentlyParked (log : List Movement) (p : String) : Prop :=
  ∃ e, specLastEntry log p e ∧
    ∀ x ∈ log, x.plateNumber = p → x.movementType = exitType →
      timeLtB e.movementTime x.movementTime = false

/-- JS `x || null` on optional TEXT columns: an empty string is falsy and is
stored as NULL (`insertMovement(s)`: `m.location || null`, `m.cardType || null`). -/
def jsOrNull (o : Option String) : Option String :=
  match o with
  | Option.none => Option.none
  | some s => if s = "" then Option.none else some s

/-- The row actually persisted for a movement (src/database.js:60-84);
`raw_data` is not modelled. -/
def storedRow (m : Movement) : Movement :=
  { m with location := jsOrNull m.location, cardType := jsOrNull m.cardType }

/-- The `UNIQUE(plate_number, movement_time, movement_type)` triple comparison
of the table schema (src/database.js:31). -/
def sameTriple (a b : Movement) : Bool :=
  decide (a.plateNumber = b.plateNumber) && decide (a.movementTime = b.movementTime)
    && decide (a.movementType = b.movementType)

/-- Whether the store already holds a row with this movement's unique triple. -/
def hasTriple (s : List Movement) (m : Movement) : Bool :=
  s.any (fun r => sameTriple m r)

/-- One `INSERT OR IGNORE` statement run: a duplicate triple is silently
dropped (`result.changes = 0`), otherwise the row is appended and counted. -/
def insertStep : List Movement × Nat → Movement → List Movement × Nat
  | (s, n), m => if hasTriple s m then (s, n) else (s ++ [storedRow m], n + 1)

/-- `insertMovements(movements)` of src/database.js:60-84: bulk
`INSERT OR IGNORE` over the batch; returns the final store and the number of
newly inserted rows (`inserted`). -/
def insertMovements (ms : List Movement) (s : List Movement) : List Movement × Nat :=
  ms.foldl insertStep (s, 0)

/-- The spec's uniqueness invariant: no two stored events share the
`(plateNumber, occurredAt, type)` triple. -/
def distinctTriples (s : List Movement) : Prop :=
  s.Pairwise (fun a b => sameTriple a b = false)

/-- The statement-by-statement run of the batch inside the transaction, with
an injected failure: `failAt = some i` makes the `i`-th `insert.run` throw. -/
def insertTxGo (failAt : Option Nat) :
    Nat → List Movement → List Movement → Nat → Except String (List Movement × Nat)
  | _, s, [], n => Except.ok (s, n)
  | i, s, m :: ms, n =>
    if failAt = some i then Except.error "insert failed"
    else insertTxGo failAt (i + 1) (insertStep (s, n) m).1 ms (insertStep (s, n) m).2

/-- `insertMovements` under better-sqlite3 `db.transaction` semantics
(src/database.js:67-83): if any statement in the batch throws, the whole
transaction rolls back (the stored log reverts to `s`) and the error
propagates to the caller; otherwise the batch commits. -/
def insertMovementsTx (ms s : List Movement) (failAt : Option Nat) :
    Except String Nat × List Movement :=
  match insertTxGo failAt 0 s ms 0 with
  | Except.ok (s', n) => (Except.ok n, s')
  | Except.error e => (Except.error e, s)

/-- The unified reporting category returned by `categorizeStatus`
(src/cpm-database.js:274-300): the six buckets plus `none` for missing codes. -/
inductive Category
  | pending
  | working
  | completed
  | outbound_waiting
  | done
  | other
  | none
deriving DecidableEq, Repr

/-- `categorizeStatus(statusCode)` of src/cpm-database.js:274-300.  The
nullable DB column is `Option String`; JS `!statusCode` is also true for the
empty string. -/
def categorizeStatus : Option String → Category
  | Option.none => Category.none
  | some s =>
    if s = "" then Category.none
    else if s ∈ ["WORKING", "WORK_PENDING"] then Category.working
    else if s ∈ ["WORK_COMPLETED", "OUTBOUND_INSPECTION_COMPLETED", "COMPLETE"] then
      Category.completed
    else if s ∈ ["OUTBOUND_IDLE", "OUTBOUND_PENDING", "OUTREADY", "HOMESERVICE", "UNPAY"] then
      Category.outbound_waiting
    else if s ∈ ["OUTBOUND_COMPLETED", "SERVICE_COMPLETED", "FINISH"] then Category.done
    else if s ∈ ["RECEPTION_COMPLETED", "INBOUND_PENDING", "INBOUND_COMPLETED",
        "INBOUND_INSPECTION_PENDING", "INBOUND_INSPECTION_COMPLETED",
        "INPUT", "PICKUPING", "PICKUPOK", "IN", "CHECK"] then Category.pending
    else Category.other

/-- The ~25 status codes of both generations: the keys of the
`RESTORATION_STATUS` table (src/cpm-database.js:17-43). -/
def knownStatusCodes : List String :=
  ["RECEPTION_COMPLETED", "INBOUND_PENDING", "INBOUND_COMPLETED",
   "INBOUND_INSPECTION_PENDING", "INBOUND_INSPECTION_COMPLETED", "WORK_PENDING",
   "WORKING", "WORK_COMPLETED", "OUTBOUND_INSPECTION_COMPLETED", "OUTBOUND_IDLE",
   "OUTBOUND_PENDING", "OUTBOUND_COMPLETED", "SERVICE_COMPLETED",
   "INPUT", "PICKUPING", "PICKUPOK", "IN", "CHECK", "COMPLETE", "OUTREADY",
   "HOMESERVICE", "UNPAY", "FINISH"]

/-- A JS value as it reaches `parseMovementType` (`item.iInOutStatus`):
null, undefined (absent field), a string, or a number. -/
inductive JVal
  | nullv
  | undef
  | str (s : String)
  | num (n : Int)
deriving DecidableEq, Repr

/-- JS `String(x)` coercion. -/
def jToString : JVal → String
  | JVal.nullv => "null"
  | JVal.undef => "undefined"
  | JVal.str s => s
  | JVal.num n => toString n

/-- JS truthiness test `!x` for the values above (null, undefined, `''` and
`0` are falsy). -/
def jFalsy : JVal → Bool
  | JVal.nullv => true
  | JVal.undef => true
  | JVal.str s => decide (s = "")
  | JVal.num n => decide (n = 0)

def prefixCheck : List Char → List Char → Bool
  | [], _ => true
  | _ :: _, [] => false
  | p :: ps, h :: hs => decide (p = h) && prefixCheck ps hs

def hasSubstring (pat : List Char) : List Char → Bool
  | [] => prefixCheck pat []
  | c :: cs => prefixCheck pat (c :: cs) || hasSubstring pat cs

/-- JS `String.prototype.includes`. -/
def jsIncludes (s pat : String) : Bool := hasSubstring pat.data s.data

/-- ASCII lower-casing; `toLowerCase()` on the provider's ASCII/Korean status
strings only affects ASCII letters. -/
def lowerChar (c : Char) : Char :=
  if 65 ≤ c.toNat ∧ c.toNat ≤ 90 then Char.ofNat (c.toNat + 32) else c

def lowerStr (s : String) : String := ⟨s.data.map lowerChar⟩

/-- `parseMovementType(status)` of src/crawler.js:171-187: `"0"`→ENTRY,
`"1"`→EXIT, string-content fallback heuristics, otherwise
`status || '알수없음'` (the raw value, coerced to a string when stored). -/
def parseMovementType (status : JVal) : String :=
  let statusStr := jToString status
  if statusStr = "0" then entryType
  else if statusStr = "1" then exitType
  else if jsIncludes statusStr "입" then entryType
  else if jsIncludes (lowerStr statusStr) "in" then entryType
  else if jsIncludes statusStr "출" then exitType
  else if jsIncludes (lowerStr statusStr) "out" then exitType
  else if jFalsy status then "알수없음"
  else jToString status

/-- A provider movement record as consumed by `parseMovements`
(src/crawler.js:141-167); absent/null string fields are `Option.none`. -/
structure RawItem where
  acPlate : Option String
  dtTrnsDate : Option String
  iInOutStatus : JVal
  acEqpmName : Option String
  iCardTypeNm : Option String
deriving DecidableEq, Repr

/-- JS `x || ''` on an optional string field. -/
def jsOrEmpty (o : Option String) : String :=
  match o with
  | Option.none => ""
  | some s => s

def takeUntilDot : List Char → List Char
  | [] => []
  | c :: cs => if c = '.' then [] else c :: takeUntilDot cs

/-- `movementTime.split('.')[0]` applied when the timestamp contains a `'.'`
(drops fractional seconds, src/crawler.js:145-148). -/
def stripMillis (t : String) : String :=
  if jsIncludes t "." then ⟨takeUntilDot t.data⟩ else t

/-- `parseMovements(data)` of src/crawler.js:126-168, after the payload-shape
normalisation has produced the item list: build records and silently drop
those missing a plate number or timestamp. -/
def parseMovements (items : List RawItem) : List Movement :=
  items.filterMap (fun item =>
    let m : Movement :=
      { plateNumber := jsOrEmpty item.acPlate
        movementType := parseMovementType item.iInOutStatus
        movementTime := stripMillis (jsOrEmpty item.dtTrnsDate)
        location := some (jsOrEmpty item.acEqpmName)
        cardType := some (jsOrEmpty item.iCardTypeNm) }
    if m.plateNumber ≠ "" ∧ m.movementTime ≠ "" then some m else Option.none)

/-- SQL `COALESCE(v.location, '미지정')` (src/database.js:119). -/
def coalesceLoc (o : Option String) : String :=
  match o with
  | Option.none => "미지정"
  | some l => l

/-- `COUNT(*)` accumulation per group key. -/
def bumpCount (counts : List (String × Nat)) (k : String) : List (String × Nat) :=
  if counts.any (fun p => decide (p.1 = k)) then
    counts.map (fun p => if decide (p.1 = k) then (p.1, p.2 + 1) else p)
  else counts ++ [(k, 1)]

/-- `getParkingCountByLocation()` of src/database.js:116-140: a `GROUP BY`
count over the same currently-parked row selection (the `ORDER BY count DESC`
presentation order is not modelled; the grouping is a deterministic function
of the selected rows). -/
def getParkingCountByLocation (log : List Movement) : List (String × Nat) :=
  (parkedRows log).foldl (fun acc v => bumpCount acc (coalesceLoc v.location)) []

/-- The `currentlyParked` statistic of `getStats()` (src/database.js:169-187):
`COUNT(*)` over the same currently-parked subquery. -/
def currentlyParkedCount (log : List Movement) : Nat :=
  (parkedRows log).length

/-- A response of the provider's search endpoint as discriminated by
`fetchMovements` (src/crawler.js:106-118): structured data, an HTML string
(with or without the `'login'` marker), or a falsy body. -/
inductive ProviderResp
  | jsonData (items : List RawItem)
  | htmlPage (hasLoginMarker : Bool)
  | noData
deriving DecidableEq, Repr

/-- The session guard at the top of `fetchMovements` (src/crawler.js:83-88):
with no client/cookies, `login()` is attempted, consuming the next entry of
the login-outcome oracle; a failed (or impossible) login throws
`'로그인 실패'`.  Returns the remaining oracle on success. -/
def ensureLogin (sess : Bool) (logins : List Bool) : Option (List Bool) :=
  if sess then some logins
  else
    match logins with
    | [] => Option.none
    | b :: rest => if b then some rest else Option.none

/-- `fetchMovements(startDate, endDate)` of src/crawler.js:82-123, run against
an oracle of successive responses to the data request and an oracle of login
outcomes.  Result: the parsed movements (or the thrown error message) paired
with the number of expiry-triggered re-login-and-retry cycles performed.  An
exhausted response oracle models a network error (thrown and re-thrown by the
catch).  On a string response containing the `'login'` marker the code clears
`cookies`/`client`, calls `login()` once (consuming one oracle entry; the
session afterwards reflects that outcome) and recursively retries the same
fetch. -/
def fetchMovements : List ProviderResp → Bool → List Bool → Except String (List Movement) × Nat
  | [], sess, logins =>
    match ensureLogin sess logins with
    | Option.none => (Except.error "로그인 실패", 0)
    | some _ => (Except.error "데이터 조회 실패", 0)
  | r :: rs, sess, logins =>
    match ensureLogin sess logins with
    | Option.none => (Except.error "로그인 실패", 0)
    | some logins2 =>
      match r with
      | ProviderResp.jsonData items => (Except.ok (parseMovements items), 0)
      | ProviderResp.noData => (Except.ok [], 0)
      | ProviderResp.htmlPage false => (Except.ok [], 0)
      | ProviderResp.htmlPage true =>
        match logins2 with
        | [] => ((fetchMovements rs false []).1, (fetchMovements rs false []).2 + 1)
        | b :: rest => ((fetchMovements rs b rest).1, (fetchMovements rs b rest).2 + 1)

/-- The state shared by the ingestion job (src/scheduler.js): the single
`isRunning` flag and the event store it writes through `insertMovements`. -/
structure JobState where
  isRunning : Bool
  store : List Movement
deriving DecidableEq, Repr

/-- Visible outcome of one `runCrawlJob()` call. -/
inductive JobOutcome
  | skipped
  | success (fetched inserted : Nat)
  | failed (msg : String)
deriving DecidableEq, Repr

/-- `runCrawlJob()` of src/scheduler.js:48-93, one call modelled atomically:
if the shared flag is set, it logs and returns at once (dropping the run,
touching nothing); otherwise it sets the flag, runs fetch + store, and the
`finally` block clears the flag on both the success and the thrown-error path.
The Slack notification never throws (its errors are caught internally). -/
def runCrawlJob (st : JobState) (fetch : Except String (List Movement)) :
    JobState × JobOutcome :=
  if st.isRunning then (st, JobOutcome.skipped)
  else
    match fetch with
    | Except.error msg => ({ isRunning := false, store := st.store }, JobOutcome.failed msg)
    | Except.ok ms =>
      let r := if ms.length > 0 then insertMovements ms st.store else (st.store, 0)
      ({ isRunning := false, store := r.1 }, JobOutcome.success ms.length r.2)

/-- One entry of the map returned by `getRestorationStatusForVehicles`
(src/cpm-database.js:239-245); the display-text fields (`statusText`,
`categoryText`) are presentation-only and omitted. -/
structure RestStatus where
  statusCode : Option String
  category : Category
  hasFail : Bool
deriving DecidableEq, Repr

/-- JS `v.location || '미지정'` (src/server.js:185): null and the empty string
both fall back to the sentinel. -/
def normLoc (o : Option String) : String :=
  match o with
  | Option.none => "미지정"
  | some l => if l = "" then "미지정" else l

/-- One location's bucket counters of the dashboard statistics
(src/server.js:186-196). -/
structure LocStats where
  total : Nat := 0
  working : Nat := 0
  completed : Nat := 0
  outbound_waiting : Nat := 0
  pending : Nat := 0
  done : Nat := 0
  fail : Nat := 0
deriving DecidableEq, Repr

/-- `locationStats[loc][category]++` guarded by `!== undefined`
(src/server.js:205-208): only the five category counters exist as fields, so
`other` and `none` fall through uncounted. -/
def bumpCategory (s : LocStats) (c : Category) : LocStats :=
  match c with
  | Category.working => { s with working := s.working + 1 }
  | Category.completed => { s with completed := s.completed + 1 }
  | Category.outbound_waiting => { s with outbound_waiting := s.outbound_waiting + 1 }
  | Category.pending => { s with pending := s.pending + 1 }
  | Category.done => { s with done := s.done + 1 }
  | Category.other => s
  | Category.none => s

/-- Per-vehicle update of the per-location restoration statistics
(src/server.js:197-210): `total++`, then FAIL is checked first — a vehicle
with a FAIL task is counted only in `fail`, otherwise its re-categorised
status bucket is incremented. -/
def updateLocStats (s : LocStats) (r : Option RestStatus) : LocStats :=
  let s1 := { s with total := s.total + 1 }
  match r with
  | Option.none => s1
  | some r =>
    if r.hasFail then { s1 with fail := s1.fail + 1 }
    else bumpCategory s1 (categorizeStatus r.statusCode)

def statsFold (f : String → Option RestStatus) (s : LocStats) (l : List Movement) : LocStats :=
  l.foldl (fun s v => updateLocStats s (f v.plateNumber)) s

/-- The `locationStats[loc]` record computed by the dashboard route
(src/server.js:183-211) for one location, over the parked vehicles and the
resolved restoration map. -/
def locationStats (loc : String) (vehicles : List Movement)
    (restorationMap : String → Option RestStatus) : LocStats :=
  statsFold restorationMap {}
    (vehicles.filter (fun v => decide (normLoc v.location = loc)))

/-- Whether a resolved entry carries the FAIL-inspection flag. -/
def failFlag (o : Option RestStatus) : Bool :=
  match o with
  | some r => r.hasFail
  | Option.none => false

/-- Whether a resolved entry is counted in bucket `c`: not FAIL-flagged and
re-categorised to `c` (src/server.js:205). -/
def inBucket (o : Option RestStatus) (c : Category) : Bool :=
  match o with
  | some r => !r.hasFail && decide (categorizeStatus r.statusCode = c)
  | Option.none => false

/-- A row of the external `car` table (the columns read by the resolver). -/
structure Car where
  c_no : Nat
  c_carnum : String
  deleted : Bool
deriving DecidableEq, Repr

/-- A row of the external `restoration` table. -/
structure RestRow where
  r_no : Nat
  r_c_no : Nat
  r_status_cd : Option String
deriving DecidableEq, Repr

/-- A row of the external `restoration_task` table, with the joined
`basic_work_*` display names flattened in. -/
structure TaskRow where
  rt_r_no : Nat
  rt_status_cd : Option String
  outboundInspectionResult : Option String
  rt_cash_cd : Option String
  workPart : Option String
  workGroup : Option String
  workName : Option String
deriving DecidableEq, Repr

/-- The external product-status store read by src/cpm-database.js. -/
structure CpmDb where
  cars : List Car
  restorations : List RestRow
  tasks : List TaskRow
deriving DecidableEq, Repr

/-- Running maximum, used to embed SQL `MAX(...)` per group. -/
def natMaxAux (n : Nat) : List Nat → Nat
  | [] => n
  | m :: ms => natMaxAux (if n < m then m else n) ms

/-- `WHERE c_carnum IN (...) AND c_del_yn = 'N'` (src/cpm-database.js:170-171). -/
def carCandidates (db : CpmDb) (carNums : List String) : List Car :=
  db.cars.filter (fun c => decide (c.c_carnum ∈ carNums) && !c.deleted)

/-- The subquery `SELECT MAX(c_no) ... GROUP BY c_carnum` over the candidate
rows: iterating rows instead of distinct keys yields the same membership set. -/
def groupMaxCno (rows : List Car) : List Nat :=
  rows.filterMap (fun c₀ =>
    match (rows.filter (fun c => decide (c.c_carnum = c₀.c_carnum))).map (fun c => c.c_no) with
    | [] => Option.none
    | n :: ns => some (natMaxAux n ns))

/-- The cars query of the batch resolver (src/cpm-database.js:169-177): the
latest non-deleted car row per requested plate. -/
def selectedCars (db : CpmDb) (carNums : List String) : List Car :=
  (carCandidates db carNums).filter
    (fun c => decide (c.c_no ∈ groupMaxCno (carCandidates db carNums)))

/-- `WHERE r_c_no IN (...)` over the selected car ids. -/
def restCandidates (db : CpmDb) (carNos : List Nat) : List RestRow :=
  db.restorations.filter (fun r => decide (r.r_c_no ∈ carNos))

/-- The subquery `SELECT MAX(r_no) ... GROUP BY r_c_no`. -/
def groupMaxRno (rows : List RestRow) : List Nat :=
  rows.filterMap (fun r₀ =>
    match (rows.filter (fun r => decide (r.r_c_no = r₀.r_c_no))).map (fun r => r.r_no) with
    | [] => Option.none
    | n :: ns => some (natMaxAux n ns))

/-- The restorations query (src/cpm-database.js:195-204): the latest
restoration row per selected car. -/
def selectedRests (db : CpmDb) (carNos : List Nat) : List RestRow :=
  (restCandidates db carNos).filter
    (fun r => decide (r.r_no ∈ groupMaxRno (restCandidates db carNos)))

/-- `rt_cash_cd IS NULL OR rt_cash_cd != 'DELETE'`. -/
def taskNotDeleted (t : TaskRow) : Bool :=
  match t.rt_cash_cd with
  | Option.none => true
  | some v => decide (v ≠ "DELETE")

/-- The failed-tasks query (src/cpm-database.js:221-226): restoration ids with
a non-deleted FAIL outbound inspection. -/
def failedRNos (db : CpmDb) (rNos : List Nat) : List Nat :=
  (db.tasks.filter (fun t => decide (t.rt_r_no ∈ rNos)
      && decide (t.outboundInspectionResult = some "FAIL") && taskNotDeleted t)).map
    (fun t => t.rt_r_no)

/-- JS `Map.prototype.set`: replace the entry if the key exists, else append. -/
def mapSet (m : List (String × RestStatus)) (k : String) (v : RestStatus) :
    List (String × RestStatus) :=
  if m.any (fun p => decide (p.1 = k)) then
    m.map (fun p => if decide (p.1 = k) then (k, v) else p)
  else m ++ [(k, v)]

/-- JS `Map.prototype.get` (`none` when absent; keys are unique by
construction, the first match is the entry). -/
def mapFind : List (String × RestStatus) → String → Option RestStatus
  | [], _ => Option.none
  | p :: ps, k => if p.1 = k then some p.2 else mapFind ps k

/-- The `carNoToCarNum` lookup built from the selected cars. -/
def carNumOf (cars : List Car) (cno : Nat) : Option String :=
  (cars.find? (fun c => decide (c.c_no = cno))).map (fun c => c.c_carnum)

/-- The explicit "no product-status record" entry set for a car with no
restoration row (src/cpm-database.js:250-260). -/
def noRecordEntry : RestStatus :=
  { statusCode := Option.none, category := Category.none, hasFail := false }

/-- One iteration of the result-map build loop over the selected restorations
(src/cpm-database.js:234-247): set the entry for the owning plate, with the
categorised status and the FAIL flag. -/
def restStep (cars : List Car) (failed : List Nat)
    (m : List (String × RestStatus)) (r : RestRow) : List (String × RestStatus) :=
  match carNumOf cars r.r_c_no with
  | Option.none => m
  | some cn => mapSet m cn
      { statusCode := r.r_status_cd
        category := categorizeStatus r.r_status_cd
        hasFail := decide (r.r_no ∈ failed) }

/-- One iteration of the no-restoration fill loop over the selected cars
(src/cpm-database.js:250-260): add the explicit "no record" entry for plates
not already present. -/
def carStep (m : List (String × RestStatus)) (c : Car) : List (String × RestStatus) :=
  if (mapFind m c.c_carnum).isSome then m else mapSet m c.c_carnum noRecordEntry

/-- `getRestorationStatusForVehicles(carNums)` of src/cpm-database.js:159-267,
with an injected query failure: `failAt = some k` makes the `k`-th
`pool.execute` (1 = cars, 2 = restorations, 3 = failed-tasks) throw, upon
which the surrounding `try/catch` logs and returns the `resultMap` built so
far (entries are only set after all queries, so an aborted call returns the
empty map).  The failed-tasks query runs only when `rNos` is non-empty. -/
def getRestorationStatusForVehiclesF (db : CpmDb) (carNums : List String)
    (failAt : Option Nat) : List (String × RestStatus) :=
  if carNums.isEmpty then []
  else if failAt = some 1 then []
  else
    let cars := selectedCars db carNums
    if cars.isEmpty then []
    else if failAt = some 2 then []
    else
      let carNos := cars.map (fun c => c.c_no)
      let rests := selectedRests db carNos
      let rNos := (rests.filter (fun r => (carNumOf cars r.r_c_no).isSome)).map (fun r => r.r_no)
      if failAt = some 3 ∧ rNos ≠ [] then []
      else
        let failed := failedRNos db rNos
        let step1 := rests.foldl (restStep cars failed) []
        cars.foldl carStep step1

/-- The no-failure run of the batch resolver. -/
def getRestorationStatusForVehicles (db : CpmDb) (carNums : List String) :
    List (String × RestStatus) :=
  getRestorationStatusForVehiclesF db carNums Option.none

/-- One task summary row of `getCurrentTasksForVehicles`. -/
structure TaskSummary where
  workPart : Option String
  workGroup : Option String
  workName : Option String
deriving DecidableEq, Repr

/-- `rt_status_cd IN ('TASKING', 'ON_QUEUE', 'DOING', 'WAIT')`: the "currently
active" working set. -/
def activeTaskCodes : List (Option String) :=
  [some "TASKING", some "ON_QUEUE", some "DOING", some "WAIT"]

/-- JS map-of-lists accumulation (`resultMap.get(carNum).push(...)`). -/
def taskMapAdd (m : List (String × List TaskSummary)) (k : String) (t : TaskSummary) :
    List (String × List TaskSummary) :=
  if m.any (fun p => decide (p.1 = k)) then
    m.map (fun p => if decide (p.1 = k) then (p.1, p.2 ++ [t]) else p)
  else m ++ [(k, [t])]

/-- The `rNoToCarNum` lookup built from the selected restorations. -/
def rNoCarNum (cars : List Car) (rests : List RestRow) (rno : Nat) : Option String :=
  match rests.find? (fun r => decide (r.r_no = rno)) with
  | Option.none => Option.none
  | some r => carNumOf cars r.r_c_no

/-- `getCurrentTasksForVehicles(carNums)` of src/cpm-database.js:393-489 with
an injected query failure (1 = cars, 2 = restorations, 3 = tasks); the
`try/catch` returns the map built so far (empty, since entries are only added
after all queries). -/
def getCurrentTasksForVehiclesF (db : CpmDb) (carNums : List String)
    (failAt : Option Nat) : List (String × List TaskSummary) :=
  if carNums.isEmpty then []
  else if failAt = some 1 then []
  else
    let cars := selectedCars db carNums
    if cars.isEmpty then []
    else if failAt = some 2 then []
    else
      let carNos := cars.map (fun c => c.c_no)
      let rests := selectedRests db carNos
      if rests.isEmpty then []
      else if failAt = some 3 then []
      else
        let rNos := (rests.filter (fun r => (carNumOf cars r.r_c_no).isSome)).map
          (fun r => r.r_no)
        let tasks := db.tasks.filter (fun t => decide (t.rt_r_no ∈ rNos)
          && decide (t.rt_status_cd ∈ activeTaskCodes) && taskNotDeleted t)
        tasks.foldl (fun m t =>
          match rNoCarNum cars rests t.rt_r_no with
          | Option.none => m
          | some cn => taskMapAdd m cn ⟨t.workPart, t.workGroup, t.workName⟩) []

/-- `getTaskStatistics(rNos)` of src/cpm-database.js:496-529 with an injected
failure of its single query; the `catch` returns `{}`.  `work_part_name ||
'기타'` groups unnamed parts under the sentinel. -/
def getTaskStatisticsF (db : CpmDb) (rNos : List Nat) (failAt : Option Nat) :
    List (String × Nat) :=
  if rNos.isEmpty then []
  else if failAt = some 1 then []
  else
    let tasks := db.tasks.filter (fun t => decide (t.rt_r_no ∈ rNos)
      && decide (t.rt_status_cd ∈ activeTaskCodes) && taskNotDeleted t)
    tasks.foldl (fun acc t =>
      bumpCount acc (match t.workPart with | Option.none => "기타" | some w => w)) []

theorem strLtB_irrefl : ∀ a, strLtB a a = false := by
  intro a
  induction a with
  | nil => rfl
  | cons c cs ih => simp [strLtB, ih]

theorem strLtB_asymm : ∀ a b, strLtB a b = true → strLtB b a = false := by
  intro a
  induction a with
  | nil =>
    intro b h
    cases b with
    | nil => simp [strLtB] at h
    | cons y ys => simp [strLtB]
  | cons x xs ih =>
    intro b h
    cases b with
    | nil => simp [strLtB] at h
    | cons y ys =>
      simp only [strLtB] at h ⊢
      by_cases hxy : x.toNat < y.toNat
      · have : ¬ y.toNat < x.toNat := by omega
        simp [hxy, this]
      · by_cases hyx : y.toNat < x.toNat
        · simp [hxy, hyx] at h
        · simp [hxy, hyx] at h ⊢
          exact ih ys h

theorem strLtB_notLt_trans :
    ∀ a b c, strLtB a b = false → strLtB b c = false → strLtB a c = false := by
  intro a
  induction a with
  | nil =>
    intro b c hab hbc
    cases b with
    | nil =>
      cases c with
      | nil => rfl
      | cons z zs => simp [strLtB] at hbc
    | cons y ys => simp [strLtB] at hab
  | cons x xs ih =>
    intro b c hab hbc
    cases b with
    | nil =>
      cases c with
      | nil => simp [strLtB]
      | cons z zs => simp [strLtB] at hbc
    | cons y ys =>
      cases c with
      | nil => simp [strLtB]
      | cons z zs =>
        simp only [strLtB] at hab hbc ⊢
        by_cases hxy : x.toNat < y.toNat
        · simp [hxy] at hab
        · by_cases hyz : y.toNat < z.toNat
          · simp [hyz] at hbc
          · have hxz : ¬ x.toNat < z.toNat := by omega
            simp only [hxz, if_false]
            by_cases hzx : z.toNat < x.toNat
            · simp [hzx]
            · simp only [hzx, if_false]
              have hyx : ¬ y.toNat < x.toNat := by omega
              have hzy : ¬ z.toNat < y.toNat := by omega
              simp [hxy, hyx] at hab
              simp [hyz, hzy] at hbc
              exact ih ys zs hab hbc

theorem timeLtB_irrefl (a : String) : timeLtB a a = false :=
  strLtB_irrefl a.data

theorem timeLtB_asymm {a b : String} (h : timeLtB a b = true) : timeLtB b a = false :=
  strLtB_asymm a.data b.data h

theorem timeLtB_notLt_trans {a b c : String}
    (hab : timeLtB a b = false) (hbc : timeLtB b c = false) : timeLtB a c = false :=
  strLtB_notLt_trans a.data b.data c.data hab hbc

theorem maxTimeAux_mem : ∀ (ts : List String) (t : String), maxTimeAux t ts ∈ t :: ts := by
  intro ts
  induction ts with
  | nil => intro t; simp [maxTimeAux]
  | cons u us ih =>
    intro t
    have h := ih (if timeLtB t u then u else t)
    by_cases hb : timeLtB t u
    · simp only [hb, if_true] at h
      simp [maxTimeAux, hb]
      rcases List.mem_cons.mp h with h' | h'
      · exact Or.inr (Or.inl h')
      · exact Or.inr (Or.inr h')
    · simp only [hb, if_false] at h
      simp [maxTimeAux, hb]
      rcases List.mem_cons.mp h with h' | h'
      · exact Or.inl h'
      · exact Or.inr (Or.inr h')

theorem maxTimeAux_notLt :
    ∀ (ts : List String) (t u : String), u ∈ t :: ts → timeLtB (maxTimeAux t ts) u = false := by
  intro ts
  induction ts with
  | nil =>
    intro t u hu
    have h' : u = t := by simpa using hu
    rw [h']
    simpa [maxTimeAux] using timeLtB_irrefl t
  | cons v vs ih =>
    intro t u hu
    by_cases hb : timeLtB t v
    · have ihv : ∀ w ∈ v :: vs, timeLtB (maxTimeAux v vs) w = false := fun w hw => ih v w hw
      have hmax : maxTimeAux t (v :: vs) = maxTimeAux v vs := by simp [maxTimeAux, hb]
      rw [hmax]
      rcases List.mem_cons.mp hu with h' | h'
      · subst h'
        have h1 : timeLtB (maxTimeAux v vs) v = false := ihv v (by simp)
        have h2 : timeLtB v u = false := timeLtB_asymm hb
        exact timeLtB_notLt_trans h1 h2
      · exact ihv u h'
    · have iht : ∀ w ∈ t :: vs, timeLtB (maxTimeAux t vs) w = false := fun w hw => ih t w hw
      have hmax : maxTimeAux t (v :: vs) = maxTimeAux t vs := by simp [maxTimeAux, hb]
      rw [hmax]
      rcases List.mem_cons.mp hu with h' | h'
      · subst h'
        exact iht u (by simp)
      · rcases List.mem_cons.mp h' with h'' | h''
        · subst h''
          have h1 : timeLtB (maxTimeAux t vs) t = false := iht t (by simp)
          have h2 : timeLtB t u = false := by simpa using hb
          exact timeLtB_notLt_trans h1 h2
        · exact iht u (by simp [h''])

theorem mem_insertDesc {v x : Movement} : ∀ l, v ∈ insertDesc x l ↔ v = x ∨ v ∈ l := by
  intro l
  induction l with
  | nil => simp [insertDesc]
  | cons y ys ih =>
    by_cases hb : timeLtB x.movementTime y.movementTime
    · simp [insertDesc, hb, ih]
      tauto
    · simp [insertDesc, hb]

theorem mem_sortDesc {v : Movement} : ∀ l, v ∈ sortDesc l ↔ v ∈ l := by
  intro l
  induction l with
  | nil => simp [sortDesc]
  | cons x xs ih => simp [sortDesc, mem_insertDesc, ih]

theorem pairwise_insertDesc {x : Movement} {l : List Movement}
    (h : l.Pairwise (fun a b => timeLtB a.movementTime b.movementTime = false)) :
    (insertDesc x l).Pairwise (fun a b => timeLtB a.movementTime b.movementTime = false) := by
  induction l with
  | nil => simp [insertDesc]
  | cons y ys ih =>
    rcases List.pairwise_cons.mp h with ⟨hy, hys⟩
    by_cases hb : timeLtB x.movementTime y.movementTime
    · simp only [insertDesc, hb, if_true]
      refine List.pairwise_cons.mpr ⟨?_, ih hys⟩
      intro z hz
      rcases (mem_insertDesc ys).mp hz with h' | h'
      · subst h'
        exact timeLtB_asymm hb
      · exact hy z h'
    · simp only [insertDesc, hb, if_false]
      refine List.pairwise_cons.mpr ⟨?_, h⟩
      intro z hz
      rcases List.mem_cons.mp hz with h' | h'
      · subst h'
        simpa using hb
      · have hxy : timeLtB x.movementTime y.movementTime = false := by simpa using hb
        exact timeLtB_notLt_trans hxy (hy z h')

theorem pairwise_sortDesc :
    ∀ l : List Movement,
      (sortDesc l).Pairwise (fun a b => timeLtB a.movementTime b.movementTime = false) := by
  intro l
  induction l with
  | nil => simp [sortDesc]
  | cons x xs ih => exact pairwise_insertDesc ih

theorem mem_entryTimes {log : List Movement} {p t : String} :
    t ∈ entryTimes log p ↔
      ∃ e ∈ log, e.plateNumber = p ∧ e.movementType = entryType ∧ e.movementTime = t := by
  simp only [entryTimes, List.mem_map, List.mem_filter, Bool.and_eq_true, decide_eq_true_eq]
  constructor
  · rintro ⟨e, ⟨he, hp, ht⟩, rfl⟩
    exact ⟨e, he, hp, ht, rfl⟩
  · rintro ⟨e, he, hp, ht, rfl⟩
    exact ⟨e, ⟨he, hp, ht⟩, rfl⟩

theorem maxEntryTime_spec {log : List Movement} {p m : String}
    (h : maxEntryTime log p = some m) :
    (∃ e ∈ log, e.plateNumber = p ∧ e.movementType = entryType ∧ e.movementTime = m) ∧
      ∀ t ∈ entryTimes log p, timeLtB m t = false := by
  rcases hE : entryTimes log p with _ | ⟨a, as⟩
  · unfold maxEntryTime at h
    rw [hE] at h
    cases h
  · unfold maxEntryTime at h
    rw [hE] at h
    have hm : m = maxTimeAux a as := by
      have := h
      simp at this
      exact this.symm
    constructor
    · have hmem : m ∈ a :: as := hm ▸ maxTimeAux_mem as a
      have hmem' : m ∈ entryTimes log p := by rw [hE]; exact hmem
      exact mem_entryTimes.mp hmem'
    · intro u hu
      exact hm ▸ maxTimeAux_notLt as a u hu

theorem maxEntryTime_isSome {log : List Movement} {p : String} {e : Movement}
    (he : e ∈ log) (hp : e.plateNumber = p) (ht : e.movementType = entryType) :
    ∃ m, maxEntryTime log p = some m := by
  have hmem : e.movementTime ∈ entryTimes log p :=
    mem_entryTimes.mpr ⟨e, he, hp, ht, rfl⟩
  unfold maxEntryTime
  rcases hE : entryTimes log p with _ | ⟨t, ts⟩
  · rw [hE] at hmem; cases hmem
  · exact ⟨maxTimeAux t ts, rfl⟩

theorem hasLaterExit_eq_false {log : List Movement} {p t : String} :
    hasLaterExit log p t = false ↔
      ∀ x ∈ log, x.plateNumber = p → x.movementType = exitType →
        timeLtB t x.movementTime = false := by
  simp only [hasLaterExit, List.any_eq_false, Bool.and_eq_true, decide_eq_true_eq]
  constructor
  · intro h x hx hp ht
    have := h x hx
    by_cases hb : timeLtB t x.movementTime = true
    · exact absurd ⟨⟨hp, ht⟩, hb⟩ this
    · simpa using hb
  · intro h x hx
    rintro ⟨⟨hp, ht⟩, hb⟩
    rw [h x hx hp ht] at hb
    cases hb

/-- C1: `getParkedVehicles` includes plate P iff P's last ENTRY exists and no
EXIT of P is strictly later (spec §3 derivation), and the result is ordered by
most-recent entry first (`movement_time` descending). -/
theorem getParkedVehicles_correct (log : List Movement) (p : String) :
    ((∃ v ∈ getParkedVehicles log, v.plateNumber = p) ↔ specCurrentlyParked log p)
    ∧ (getParkedVehicles log).Pairwise
        (fun a b => timeLtB a.movementTime b.movementTime = false) := by
  constructor
  · unfold getParkedVehicles
    constructor
    · rintro ⟨v, hv, hvp⟩
      have hv' : v ∈ parkedRows log := (mem_sortDesc _).mp hv
      rcases List.mem_filter.mp hv' with ⟨hvlog, hpred⟩
      simp only [isParkedRow, Bool.and_eq_true, decide_eq_true_eq, Bool.not_eq_true'] at hpred
      rcases hpred with ⟨⟨hty, hmax⟩, hexit⟩
      rw [hvp] at hmax hexit
      rcases maxEntryTime_spec hmax with ⟨_, hbound⟩
      refine ⟨v, ⟨hvlog, hvp, hty, ?_⟩, ?_⟩
      · intro e₂ he₂ hp₂ ht₂
        exact hbound e₂.movementTime (mem_entryTimes.mpr ⟨e₂, he₂, hp₂, ht₂, rfl⟩)
      · intro x hx hxp hxt
        exact hasLaterExit_eq_false.mp hexit x hx hxp hxt
    · rintro ⟨e, ⟨helog, hep, het, hemax⟩, hexits⟩
      rcases maxEntryTime_isSome helog hep het with ⟨m, hm⟩
      rcases maxEntryTime_spec hm with ⟨⟨e', he'log, he'p, he't, he'time⟩, hbound⟩
      have hme : timeLtB m e.movementTime = false :=
        hbound e.movementTime (mem_entryTimes.mpr ⟨e, helog, hep, het, rfl⟩)
      have hem : timeLtB e.movementTime m = false := by
        rw [← he'time]
        exact hemax e' he'log he'p he't
      refine ⟨e', (mem_sortDesc _).mpr (List.mem_filter.mpr ⟨he'log, ?_⟩), he'p⟩
      simp only [isParkedRow, Bool.and_eq_true, decide_eq_true_eq, Bool.not_eq_true']
      refine ⟨⟨he't, ?_⟩, ?_⟩
      · rw [he'p, he'time]; exact hm
      · rw [he'p, he'time]
        refine hasLaterExit_eq_false.mpr ?_
        intro x hx hxp hxt
        exact timeLtB_notLt_trans hme (hexits x hx hxp hxt)
  · exact pairwise_sortDesc _

theorem decide_eq_symm {α : Type} [DecidableEq α] (a b : α) :
    decide (a = b) = decide (b = a) := by
  by_cases h : a = b
  · subst h; rfl
  · have h' : ¬ b = a := fun hh => h hh.symm
    simp [h, h']

theorem sameTriple_symm (a b : Movement) : sameTriple a b = sameTriple b a := by
  unfold sameTriple
  rw [decide_eq_symm a.plateNumber b.plateNumber,
    decide_eq_symm a.movementTime b.movementTime,
    decide_eq_symm a.movementType b.movementType]

theorem sameTriple_storedRow (a m : Movement) :
    sameTriple a (storedRow m) = sameTriple a m := rfl

theorem hasTriple_append (s l : List Movement) (m : Movement) :
    hasTriple (s ++ l) m = (hasTriple s m || hasTriple l m) := by
  simp [hasTriple, List.any_append]

theorem hasTriple_insertStep {s : List Movement} {n : Nat} {m : Movement} (m' : Movement)
    (h : hasTriple s m = true) : hasTriple (insertStep (s, n) m').1 m = true := by
  unfold insertStep
  by_cases hd : hasTriple s m'
  · simpa [hd] using h
  · simp [hd, hasTriple_append, h]

theorem hasTriple_foldl :
    ∀ (ms s : List Movement) (n : Nat) (m : Movement), hasTriple s m = true →
      hasTriple (List.foldl insertStep (s, n) ms).1 m = true := by
  intro ms
  induction ms with
  | nil => intro s n m h; simpa using h
  | cons x xs ih =>
    intro s n m h
    simp only [List.foldl_cons]
    have h' := hasTriple_insertStep (n := n) x h
    rcases hstep : insertStep (s, n) x with ⟨s', n'⟩
    rw [hstep] at h'
    exact ih s' n' m h'

theorem hasTriple_insertStep_self (s : List Movement) (n : Nat) (m : Movement) :
    hasTriple (insertStep (s, n) m).1 m = true := by
  unfold insertStep
  by_cases hd : hasTriple s m
  · simp [hd]
  · simp [hd, hasTriple_append]
    simp [hasTriple, sameTriple_storedRow, sameTriple]
    exact ⟨⟨rfl, rfl⟩, rfl⟩

theorem hasTriple_batch :
    ∀ (ms s : List Movement) (n : Nat) (m : Movement), m ∈ ms →
      hasTriple (List.foldl insertStep (s, n) ms).1 m = true := by
  intro ms
  induction ms with
  | nil => intro s n m h; cases h
  | cons x xs ih =>
    intro s n m h
    simp only [List.foldl_cons]
    rcases List.mem_cons.mp h with h' | h'
    · subst h'
      have hs := hasTriple_insertStep_self s n m
      rcases hstep : insertStep (s, n) m with ⟨s', n'⟩
      rw [hstep] at hs
      exact hasTriple_foldl xs s' n' m hs
    · rcases hstep : insertStep (s, n) x with ⟨s', n'⟩
      exact ih s' n' m h'

theorem foldl_insertStep_noop :
    ∀ (ms s : List Movement) (n : Nat), (∀ m ∈ ms, hasTriple s m = true) →
      List.foldl insertStep (s, n) ms = (s, n) := by
  intro ms
  induction ms with
  | nil => intro s n _; rfl
  | cons x xs ih =>
    intro s n h
    have hx : insertStep (s, n) x = (s, n) := by
      simp [insertStep, h x (by simp)]
    simp only [List.foldl_cons, hx]
    exact ih s n (fun m hm => h m (by simp [hm]))

theorem hasTriple_eq_false {s : List Movement} {m : Movement}
    (h : hasTriple s m = false) : ∀ r ∈ s, sameTriple m r = false := by
  simp only [hasTriple, List.any_eq_false] at h
  intro r hr
  simpa using h r hr

theorem distinct_insertStep {s : List Movement} {n : Nat} {m : Movement}
    (h : distinctTriples s) : distinctTriples (insertStep (s, n) m).1 := by
  unfold insertStep
  by_cases hd : hasTriple s m
  · simpa [hd] using h
  · simp only [hd, Bool.false_eq_true, if_false]
    refine List.pairwise_append.mpr ⟨h, by simp [distinctTriples], ?_⟩
    intro a ha b hb
    simp at hb
    subst hb
    have hfalse := hasTriple_eq_false (by simpa using hd) a ha
    rw [sameTriple_storedRow, sameTriple_symm]
    exact hfalse

theorem distinct_foldl :
    ∀ (ms s : List Movement) (n : Nat), distinctTriples s →
      distinctTriples (List.foldl insertStep (s, n) ms).1 := by
  intro ms
  induction ms with
  | nil => intro s n h; simpa using h
  | cons x xs ih =>
    intro s n h
    simp only [List.foldl_cons]
    have h' := distinct_insertStep (n := n) (m := x) h
    rcases hstep : insertStep (s, n) x with ⟨s', n'⟩
    rw [hstep] at h'
    exact ih s' n' h'

/-- C2: appending the same event set twice yields `insertedCount = 0` on the
second call, leaves the store (hence `parkedVehicles()`) unchanged, and
preserves the uniqueness invariant: duplicates are silently dropped, never
overwritten. -/
theorem insertMovements_idempotent (ms s : List Movement) (h : distinctTriples s) :
    insertMovements ms (insertMovements ms s).1 = ((insertMovements ms s).1, 0)
    ∧ getParkedVehicles (insertMovements ms (insertMovements ms s).1).1
        = getParkedVehicles (insertMovements ms s).1
    ∧ distinctTriples (insertMovements ms s).1 := by
  have hdup : ∀ m ∈ ms, hasTriple (insertMovements ms s).1 m = true := by
    intro m hm
    exact hasTriple_batch ms s 0 m hm
  have hnoop : insertMovements ms (insertMovements ms s).1 = ((insertMovements ms s).1, 0) :=
    foldl_insertStep_noop ms (insertMovements ms s).1 0 hdup
  refine ⟨hnoop, ?_, distinct_foldl ms s 0 h⟩
  rw [hnoop]

theorem insertMovements_idempotent_witness :
    insertMovements [⟨"12가3456", "입차", "2024-01-01 09:00:00", Option.none, Option.none⟩]
        (insertMovements
          [⟨"12가3456", "입차", "2024-01-01 09:00:00", Option.none, Option.none⟩] []).1
      = ((insertMovements
          [⟨"12가3456", "입차", "2024-01-01 09:00:00", Option.none, Option.none⟩] []).1, 0) :=
  (insertMovements_idempotent _ [] List.Pairwise.nil).1

theorem insertTxGo_none :
    ∀ (ms s : List Movement) (i n : Nat),
      insertTxGo Option.none i s ms n = Except.ok (List.foldl insertStep (s, n) ms) := by
  intro ms
  induction ms with
  | nil => intro s i n; rfl
  | cons x xs ih =>
    intro s i n
    simp only [insertTxGo, List.foldl_cons]
    rcases hstep : insertStep (s, n) x with ⟨s', n'⟩
    simp only [hstep]
    exact ih s' (i + 1) n'

theorem insertTxGo_err :
    ∀ (ms s : List Movement) (i n j : Nat), i ≤ j → j < i + ms.length →
      insertTxGo (some j) i s ms n = Except.error "insert failed" := by
  intro ms
  induction ms with
  | nil => intro s i n j h1 h2; simp at h2; omega
  | cons x xs ih =>
    intro s i n j h1 h2
    by_cases hj : j = i
    · subst hj
      simp [insertTxGo]
    · have hne : ¬ (some j = some i) := fun hc => hj (Option.some.inj hc)
      simp only [insertTxGo, if_neg hne]
      rcases hstep : insertStep (s, n) x with ⟨s', n'⟩
      simp only [hstep]
      exact ih s' (i + 1) n' j (by omega) (by simp only [List.length_cons] at h2; omega)

theorem foldl_insertStep_length :
    ∀ (ms s : List Movement) (n : Nat),
      (List.foldl insertStep (s, n) ms).1.length + n
        = (List.foldl insertStep (s, n) ms).2 + s.length := by
  intro ms
  induction ms with
  | nil => intro s n; simp only [List.foldl_nil]; omega
  | cons x xs ih =>
    intro s n
    simp only [List.foldl_cons]
    by_cases hd : hasTriple s x
    · have hx : insertStep (s, n) x = (s, n) := by simp [insertStep, hd]
      rw [hx]
      exact ih s n
    · have hx : insertStep (s, n) x = (s ++ [storedRow x], n + 1) := by
        simp [insertStep, hd]
      rw [hx]
      have := ih (s ++ [storedRow x]) (n + 1)
      simp only [List.length_append, List.length_singleton] at this
      omega

/-- C9: batch insert is one atomic transaction: if any statement of the batch
fails, the error propagates to the caller and the event log is unchanged; on
success it returns exactly the number of newly inserted (non-duplicate) rows,
i.e. the growth of the log. -/
theorem insertMovementsTx_atomic (ms s : List Movement) (i : Nat) (hi : i < ms.length) :
    insertMovementsTx ms s (some i) = (Except.error "insert failed", s)
    ∧ insertMovementsTx ms s Option.none
        = (Except.ok (insertMovements ms s).2, (insertMovements ms s).1)
    ∧ (insertMovements ms s).1.length = s.length + (insertMovements ms s).2 := by
  refine ⟨?_, ?_, ?_⟩
  · unfold insertMovementsTx
    rw [insertTxGo_err ms s 0 0 i (Nat.zero_le i) (by simpa using hi)]
  · unfold insertMovementsTx
    rw [insertTxGo_none ms s 0 0]
    rcases hfold : List.foldl insertStep (s, 0) ms with ⟨s', n'⟩
    simp [insertMovements, hfold]
  · have := foldl_insertStep_length ms s 0
    unfold insertMovements
    omega

theorem insertMovementsTx_atomic_witness :
    insertMovementsTx [⟨"12가3456", "입차", "2024-01-01 09:00:00", Option.none, Option.none⟩]
        [] (some 0)
      = (Except.error "insert failed", []) :=
  (insertMovementsTx_atomic _ [] 0 (by simp)).1

/-- C4 counterexample: the code maps the unknown non-null status code
`"FOO"` to `other`, not to `none` as the claim states
(src/cpm-database.js:299 returns `'other'`; `'none'` is only for falsy codes). -/
theorem categorizeStatus_unknown_counterexample :
    categorizeStatus (some "FOO") = Category.other
    ∧ Category.other ≠ Category.none := by
  constructor
  · decide
  · decide

/-- C4 (amended): `categorizeStatus` is a total deterministic table lookup;
every known status code of either generation maps into the six buckets (in
fact into the five non-`other` ones); null/empty codes map to `none`; unknown
non-empty codes map to `other` (not `none`). -/
theorem categorizeStatus_total (s : String)
    (h1 : s ∉ knownStatusCodes) (h2 : s ≠ "") :
    (∀ c ∈ knownStatusCodes,
        categorizeStatus (some c) ∈ [Category.pending, Category.working,
          Category.completed, Category.outbound_waiting, Category.done])
    ∧ categorizeStatus Option.none = Category.none
    ∧ categorizeStatus (some "") = Category.none
    ∧ categorizeStatus (some s) = Category.other := by
  refine ⟨by decide, rfl, by decide, ?_⟩
  have notIn : ∀ l : List String, (∀ x ∈ l, x ∈ knownStatusCodes) → s ∉ l :=
    fun l hl hc => h1 (hl s hc)
  simp only [categorizeStatus]
  rw [if_neg h2, if_neg (notIn _ (by decide)), if_neg (notIn _ (by decide)),
    if_neg (notIn _ (by decide)), if_neg (notIn _ (by decide)),
    if_neg (notIn _ (by decide))]

theorem categorizeStatus_total_witness :
    categorizeStatus (some "ZZZ") = Category.other :=
  (categorizeStatus_total "ZZZ" (by decide) (by decide)).2.2.2

/-- C3 counterexample: with a live session, two consecutive session-expiry
responses (HTML with the login marker) followed by a data response make the
call SUCCEED after two re-authentication/retry cycles: the second expiry
within the same call is retried again instead of being a hard failure, so the
recursion is not bounded to one retry. -/
theorem fetchMovements_second_expiry_counterexample :
    fetchMovements
        [ProviderResp.htmlPage true, ProviderResp.htmlPage true, ProviderResp.jsonData []]
        true [true, true]
      = (Except.ok [], 2) := rfl

theorem fetchMovements_expiry_step (rest : List ProviderResp) (b : Bool) (logins : List Bool) :
    fetchMovements (ProviderResp.htmlPage true :: rest) true (b :: logins)
      = ((fetchMovements rest b logins).1, (fetchMovements rest b logins).2 + 1) := by
  simp [fetchMovements, ensureLogin]

/-- C3 (amended): a detected session expiry clears the session state,
re-authenticates once and retries the same fetch, but the retry is NOT bounded
to one: every further expiry response triggers another re-login and retry, so
`n` consecutive expiry responses cause exactly `n` re-authentication cycles
before the next response is processed (unbounded recursion, as flagged by the
spec's §9 design note). -/
theorem fetchMovements_unbounded_retry (n : Nat) (rs : List ProviderResp) (L : List Bool) :
    fetchMovements (List.replicate n (ProviderResp.htmlPage true) ++ rs) true
        (List.replicate n true ++ L)
      = ((fetchMovements rs true L).1, (fetchMovements rs true L).2 + n) := by
  induction n with
  | zero => simp
  | succ k ih =>
    simp only [List.replicate_succ, List.cons_append]
    rw [fetchMovements_expiry_step, ih]
    simp [Nat.add_assoc]

theorem entryTimes_inert (log₁ log₂ : List Movement) (e : Movement)
    (h : e.movementType ≠ entryType) (p : String) :
    entryTimes (log₁ ++ e :: log₂) p = entryTimes (log₁ ++ log₂) p := by
  unfold entryTimes
  have hpred : (decide (e.plateNumber = p) && decide (e.movementType = entryType)) = false := by
    simp [h]
  simp [List.filter_append, List.filter_cons, hpred]

theorem hasLaterExit_inert (log₁ log₂ : List Movement) (e : Movement)
    (h : e.movementType ≠ exitType) (p t : String) :
    hasLaterExit (log₁ ++ e :: log₂) p t = hasLaterExit (log₁ ++ log₂) p t := by
  unfold hasLaterExit
  simp [List.any_append, List.any_cons, h]

theorem maxEntryTime_inert (log₁ log₂ : List Movement) (e : Movement)
    (h : e.movementType ≠ entryType) (p : String) :
    maxEntryTime (log₁ ++ e :: log₂) p = maxEntryTime (log₁ ++ log₂) p := by
  unfold maxEntryTime
  rw [entryTimes_inert log₁ log₂ e h p]

theorem isParkedRow_inert (log₁ log₂ : List Movement) (e : Movement)
    (hE : e.movementType ≠ entryType) (hX : e.movementType ≠ exitType) (v : Movement) :
    isParkedRow (log₁ ++ e :: log₂) v = isParkedRow (log₁ ++ log₂) v := by
  unfold isParkedRow
  rw [maxEntryTime_inert log₁ log₂ e hE, hasLaterExit_inert log₁ log₂ e hX]

theorem parkedRows_inert (log₁ log₂ : List Movement) (e : Movement)
    (hE : e.movementType ≠ entryType) (hX : e.movementType ≠ exitType) :
    parkedRows (log₁ ++ e :: log₂) = parkedRows (log₁ ++ log₂) := by
  unfold parkedRows
  rw [List.filter_congr (fun v _ => isParkedRow_inert log₁ log₂ e hE hX v)]
  have he : isParkedRow (log₁ ++ log₂) e = false := by
    simp [isParkedRow, hE]
  simp [List.filter_append, List.filter_cons, he]

/-- C10: a provider record whose direction code is neither `"0"` nor `"1"` and
matches none of the string-content heuristics keeps its raw status value as
`movementType` (or the literal `'알수없음'` when the value is falsy); that value
is outside {ENTRY, EXIT}; the record is still parsed (hence stored) when it
has a plate and timestamp; and a stored row of such a type is invisible to
`getParkedVehicles()`, `getParkingCountByLocation()` and the currently-parked
statistic. -/
theorem parseMovementType_raw_passthrough (item : RawItem) (log₁ log₂ : List Movement)
    (e : Movement)
    (h0 : jToString item.iInOutStatus ≠ "0")
    (h1 : jToString item.iInOutStatus ≠ "1")
    (h2 : jsIncludes (jToString item.iInOutStatus) "입" = false)
    (h3 : jsIncludes (lowerStr (jToString item.iInOutStatus)) "in" = false)
    (h4 : jsIncludes (jToString item.iInOutStatus) "출" = false)
    (h5 : jsIncludes (lowerStr (jToString item.iInOutStatus)) "out" = false)
    (hplate : jsOrEmpty item.acPlate ≠ "")
    (htime : stripMillis (jsOrEmpty item.dtTrnsDate) ≠ "")
    (he : e.movementType = parseMovementType item.iInOutStatus) :
    parseMovementType item.iInOutStatus
        = (if jFalsy item.iInOutStatus then "알수없음" else jToString item.iInOutStatus)
    ∧ parseMovementType item.iInOutStatus ≠ entryType
    ∧ parseMovementType item.iInOutStatus ≠ exitType
    ∧ parseMovements [item]
        = [{ plateNumber := jsOrEmpty item.acPlate
             movementType := parseMovementType item.iInOutStatus
             movementTime := stripMillis (jsOrEmpty item.dtTrnsDate)
             location := some (jsOrEmpty item.acEqpmName)
             cardType := some (jsOrEmpty item.iCardTypeNm) }]
    ∧ getParkedVehicles (log₁ ++ e :: log₂) = getParkedVehicles (log₁ ++ log₂)
    ∧ getParkingCountByLocation (log₁ ++ e :: log₂) = getParkingCountByLocation (log₁ ++ log₂)
    ∧ currentlyParkedCount (log₁ ++ e :: log₂) = currentlyParkedCount (log₁ ++ log₂) := by
  have hval : parseMovementType item.iInOutStatus
      = (if jFalsy item.iInOutStatus then "알수없음" else jToString item.iInOutStatus) := by
    simp only [parseMovementType, h2, h3, h4, h5]
    rw [if_neg h0, if_neg h1]
    simp
  have hne : parseMovementType item.iInOutStatus ≠ entryType := by
    rw [hval]
    by_cases hf : jFalsy item.iInOutStatus
    · simp only [hf, if_true]
      decide
    · simp only [hf, Bool.false_eq_true, if_false]
      intro hcontra
      rw [hcontra] at h2
      exact absurd h2 (by decide)
  have hnx : parseMovementType item.iInOutStatus ≠ exitType := by
    rw [hval]
    by_cases hf : jFalsy item.iInOutStatus
    · simp only [hf, if_true]
      decide
    · simp only [hf, Bool.false_eq_true, if_false]
      intro hcontra
      rw [hcontra] at h4
      exact absurd h4 (by decide)
  have hEe : e.movementType ≠ entryType := by rw [he]; exact hne
  have hXe : e.movementType ≠ exitType := by rw [he]; exact hnx
  refine ⟨hval, hne, hnx, ?_, ?_, ?_, ?_⟩
  · simp [parseMovements, hplate, htime]
  · unfold getParkedVehicles
    rw [parkedRows_inert log₁ log₂ e hEe hXe]
  · unfold getParkingCountByLocation
    rw [parkedRows_inert log₁ log₂ e hEe hXe]
  · unfold currentlyParkedCount
    rw [parkedRows_inert log₁ log₂ e hEe hXe]

theorem parseMovementType_raw_passthrough_witness :
    parseMovementType (JVal.str "2") ≠ entryType
    ∧ getParkedVehicles
          ([] ++ (⟨"12가3456", "2", "2024-01-01 09:00:00", some "", some ""⟩ : Movement) :: [])
        = getParkedVehicles ([] ++ []) := by
  have h := parseMovementType_raw_passthrough
    ⟨some "12가3456", some "2024-01-01 09:00:00.0", JVal.str "2", some "", some ""⟩ [] []
    ⟨"12가3456", "2", "2024-01-01 09:00:00", some "", some ""⟩
    (by decide) (by decide) (by decide) (by decide) (by decide) (by decide)
    (by decide) (by decide) (by decide)
  exact ⟨h.2.1, h.2.2.2.2.1⟩

/-- C5: `runCrawlJob` is single-flight: a call made while a run is in progress
returns immediately with no error and no change to the store (the run is
dropped, not queued); and from the idle state the running flag is back to
`false` on every exit path, whether the fetch succeeds or throws, so a failed
run returns to IDLE. -/
theorem runCrawlJob_single_flight (st : JobState) (fetch : Except String (List Movement)) :
    (st.isRunning = true → runCrawlJob st fetch = (st, JobOutcome.skipped))
    ∧ (st.isRunning = false → (runCrawlJob st fetch).1.isRunning = false) := by
  constructor
  · intro h
    simp [runCrawlJob, h]
  · intro h
    cases fetch with
    | error msg => simp [runCrawlJob, h]
    | ok ms => simp [runCrawlJob, h]

theorem runCrawlJob_single_flight_witness :
    runCrawlJob ⟨true, []⟩ (Except.ok []) = (⟨true, []⟩, JobOutcome.skipped)
    ∧ (runCrawlJob ⟨false, []⟩ (Except.error "crawl error")).1.isRunning = false :=
  ⟨(runCrawlJob_single_flight ⟨true, []⟩ (Except.ok [])).1 rfl,
   (runCrawlJob_single_flight ⟨false, []⟩ (Except.error "crawl error")).2 rfl⟩

theorem updateLocStats_total (s : LocStats) (o : Option RestStatus) :
    (updateLocStats s o).total = s.total + 1 := by
  rcases o with _ | r
  · rfl
  · by_cases h : r.hasFail
    · simp [updateLocStats, h]
    · simp only [updateLocStats, h, Bool.false_eq_true, if_false]
      rcases hc : categorizeStatus r.statusCode <;> simp [bumpCategory]

theorem updateLocStats_fail (s : LocStats) (o : Option RestStatus) :
    (updateLocStats s o).fail = s.fail + (if failFlag o = true then 1 else 0) := by
  rcases o with _ | r
  · simp [updateLocStats, failFlag]
  · by_cases h : r.hasFail
    · simp [updateLocStats, failFlag, h]
    · simp only [updateLocStats, failFlag, h, Bool.false_eq_true, if_false]
      rcases hc : categorizeStatus r.statusCode <;> simp [bumpCategory]

theorem updateLocStats_working (s : LocStats) (o : Option RestStatus) :
    (updateLocStats s o).working
      = s.working + (if inBucket o Category.working = true then 1 else 0) := by
  rcases o with _ | r
  · simp [updateLocStats, inBucket]
  · by_cases h : r.hasFail
    · simp [updateLocStats, inBucket, h]
    · simp only [updateLocStats, inBucket, h, Bool.false_eq_true, Bool.not_false,
        Bool.true_and, if_false]
      rcases hc : categorizeStatus r.statusCode <;> simp [bumpCategory, hc]

theorem updateLocStats_completed (s : LocStats) (o : Option RestStatus) :
    (updateLocStats s o).completed
      = s.completed + (if inBucket o Category.completed = true then 1 else 0) := by
  rcases o with _ | r
  · simp [updateLocStats, inBucket]
  · by_cases h : r.hasFail
    · simp [updateLocStats, inBucket, h]
    · simp only [updateLocStats, inBucket, h, Bool.false_eq_true, Bool.not_false,
        Bool.true_and, if_false]
      rcases hc : categorizeStatus r.statusCode <;> simp [bumpCategory, hc]

theorem updateLocStats_outbound (s : LocStats) (o : Option RestStatus) :
    (updateLocStats s o).outbound_waiting
      = s.outbound_waiting + (if inBucket o Category.outbound_waiting = true then 1 else 0) := by
  rcases o with _ | r
  · simp [updateLocStats, inBucket]
  · by_cases h : r.hasFail
    · simp [updateLocStats, inBucket, h]
    · simp only [updateLocStats, inBucket, h, Bool.false_eq_true, Bool.not_false,
        Bool.true_and, if_false]
      rcases hc : categorizeStatus r.statusCode <;> simp [bumpCategory, hc]

theorem updateLocStats_pending (s : LocStats) (o : Option RestStatus) :
    (updateLocStats s o).pending
      = s.pending + (if inBucket o Category.pending = true then 1 else 0) := by
  rcases o with _ | r
  · simp [updateLocStats, inBucket]
  · by_cases h : r.hasFail
    · simp [updateLocStats, inBucket, h]
    · simp only [updateLocStats, inBucket, h, Bool.false_eq_true, Bool.not_false,
        Bool.true_and, if_false]
      rcases hc : categorizeStatus r.statusCode <;> simp [bumpCategory, hc]

theorem updateLocStats_done (s : LocStats) (o : Option RestStatus) :
    (updateLocStats s o).done
      = s.done + (if inBucket o Category.done = true then 1 else 0) := by
  rcases o with _ | r
  · simp [updateLocStats, inBucket]
  · by_cases h : r.hasFail
    · simp [updateLocStats, inBucket, h]
    · simp only [updateLocStats, inBucket, h, Bool.false_eq_true, Bool.not_false,
        Bool.true_and, if_false]
      rcases hc : categorizeStatus r.statusCode <;> simp [bumpCategory, hc]

theorem statsFold_spec (f : String → Option RestStatus) :
    ∀ (l : List Movement) (s : LocStats),
      (statsFold f s l).total = s.total + l.length
      ∧ (statsFold f s l).fail = s.fail + l.countP (fun v => failFlag (f v.plateNumber))
      ∧ (statsFold f s l).working
          = s.working + l.countP (fun v => inBucket (f v.plateNumber) Category.working)
      ∧ (statsFold f s l).completed
          = s.completed + l.countP (fun v => inBucket (f v.plateNumber) Category.completed)
      ∧ (statsFold f s l).outbound_waiting
          = s.outbound_waiting
            + l.countP (fun v => inBucket (f v.plateNumber) Category.outbound_waiting)
      ∧ (statsFold f s l).pending
          = s.pending + l.countP (fun v => inBucket (f v.plateNumber) Category.pending)
      ∧ (statsFold f s l).done
          = s.done + l.countP (fun v => inBucket (f v.plateNumber) Category.done) := by
  intro l
  induction l with
  | nil =>
    intro s
    simp [statsFold]
  | cons v vs ih =>
    intro s
    have IH := ih (updateLocStats s (f v.plateNumber))
    simp only [statsFold, List.foldl_cons] at IH ⊢
    obtain ⟨iht, ihf, ihw, ihc, iho, ihp, ihd⟩ := IH
    rw [updateLocStats_total] at iht
    rw [updateLocStats_fail] at ihf
    rw [updateLocStats_working] at ihw
    rw [updateLocStats_completed] at ihc
    rw [updateLocStats_outbound] at iho
    rw [updateLocStats_pending] at ihp
    rw [updateLocStats_done] at ihd
    refine ⟨?_, ?_, ?_, ?_, ?_, ?_, ?_⟩
    · simp only [List.length_cons]
      rw [iht]
      omega
    · simp only [List.countP_cons]
      rw [ihf]
      omega
    · simp only [List.countP_cons]
      rw [ihw]
      omega
    · simp only [List.countP_cons]
      rw [ihc]
      omega
    · simp only [List.countP_cons]
      rw [iho]
      omega
    · simp only [List.countP_cons]
      rw [ihp]
      omega
    · simp only [List.countP_cons]
      rw [ihd]
      omega

/-- C6: in the per-location aggregate stats `hasFailedInspection` takes
precedence over the nominal status category: `fail` counts exactly the parked
vehicles at the location whose resolved status carries a FAIL task, and each
of the five category buckets counts exactly the NON-fail vehicles of that
category — so a `working` vehicle with a FAIL task is reported under `fail`
and not under `working`. -/
theorem locationStats_fail_precedence (loc : String) (vs : List Movement)
    (f : String → Option RestStatus) :
    (locationStats loc vs f).fail
        = (vs.filter (fun v => decide (normLoc v.location = loc))).countP
            (fun v => failFlag (f v.plateNumber))
    ∧ (locationStats loc vs f).working
        = (vs.filter (fun v => decide (normLoc v.location = loc))).countP
            (fun v => inBucket (f v.plateNumber) Category.working)
    ∧ (locationStats loc vs f).completed
        = (vs.filter (fun v => decide (normLoc v.location = loc))).countP
            (fun v => inBucket (f v.plateNumber) Category.completed)
    ∧ (locationStats loc vs f).outbound_waiting
        = (vs.filter (fun v => decide (normLoc v.location = loc))).countP
            (fun v => inBucket (f v.plateNumber) Category.outbound_waiting)
    ∧ (locationStats loc vs f).pending
        = (vs.filter (fun v => decide (normLoc v.location = loc))).countP
            (fun v => inBucket (f v.plateNumber) Category.pending)
    ∧ (locationStats loc vs f).done
        = (vs.filter (fun v => decide (normLoc v.location = loc))).countP
            (fun v => inBucket (f v.plateNumber) Category.done) := by
  have h := statsFold_spec f (vs.filter (fun v => decide (normLoc v.location = loc))) {}
  obtain ⟨_, hf, hw, hc, ho, hp, hd⟩ := h
  unfold locationStats
  refine ⟨?_, ?_, ?_, ?_, ?_, ?_⟩ <;> simp_all

/-- C8: the Status Resolver entry points never propagate lookup errors: with
a failure injected at any batch step, `getRestorationStatusForVehicles`,
`getCurrentTasksForVehicles` and `getTaskStatistics` each still return a map —
the (empty) map built so far when the failing step is actually executed, or
the normal result when it is not — instead of throwing to the caller. -/
theorem statusResolver_error_policy (db : CpmDb) (carNums : List String)
    (rNos : List Nat) (k : Nat) :
    (getRestorationStatusForVehiclesF db carNums (some k) = []
      ∨ getRestorationStatusForVehiclesF db carNums (some k)
          = getRestorationStatusForVehicles db carNums)
    ∧ (getCurrentTasksForVehiclesF db carNums (some k) = []
      ∨ getCurrentTasksForVehiclesF db carNums (some k)
          = getCurrentTasksForVehiclesF db carNums Option.none)
    ∧ (getTaskStatisticsF db rNos (some k) = []
      ∨ getTaskStatisticsF db rNos (some k) = getTaskStatisticsF db rNos Option.none) := by
  refine ⟨?_, ?_, ?_⟩
  · unfold getRestorationStatusForVehicles getRestorationStatusForVehiclesF
    by_cases h0 : carNums.isEmpty
    · left
      simp [h0]
    · by_cases hk1 : k = 1
      · left
        subst hk1
        simp [h0]
      · by_cases hcars : (selectedCars db carNums).isEmpty
        · left
          simp [h0, hcars, hk1]
        · by_cases hk2 : k = 2
          · left
            subst hk2
            simp [h0, hcars]
          · by_cases hk3 : k = 3
            · subst hk3
              by_cases hr : ((selectedRests db
                    ((selectedCars db carNums).map (fun c => c.c_no))).filter
                      (fun r => (carNumOf (selectedCars db carNums) r.r_c_no).isSome)).map
                    (fun r => r.r_no) = ([] : List Nat)
              · right
                simp [h0, hcars, hr]
              · left
                simp [h0, hcars, hr]
            · right
              simp [h0, hcars, hk1, hk2, hk3]
  · unfold getCurrentTasksForVehiclesF
    by_cases h0 : carNums.isEmpty
    · left
      simp [h0]
    · by_cases hk1 : k = 1
      · left
        subst hk1
        simp [h0]
      · by_cases hcars : (selectedCars db carNums).isEmpty
        · left
          simp [h0, hcars, hk1]
        · by_cases hk2 : k = 2
          · left
            subst hk2
            simp [h0, hcars]
          · by_cases hrests : (selectedRests db
                ((selectedCars db carNums).map (fun c => c.c_no))).isEmpty
            · left
              simp [h0, hcars, hk1, hk2, hrests]
            · by_cases hk3 : k = 3
              · left
                subst hk3
                simp [h0, hcars, hrests]
              · right
                simp [h0, hcars, hrests, hk1, hk2, hk3]
  · unfold getTaskStatisticsF
    by_cases h0 : rNos.isEmpty
    · left
      simp [h0]
    · by_cases hk1 : k = 1
      · left
        subst hk1
        simp [h0]
      · right
        simp [h0, hk1]

theorem natMaxAux_mem : ∀ (ls : List Nat) (n : Nat), natMaxAux n ls ∈ n :: ls := by
  intro ls
  induction ls with
  | nil => intro n; simp [natMaxAux]
  | cons m ms ih =>
    intro n
    have h := ih (if n < m then m else n)
    by_cases hb : n < m
    · simp only [hb, if_true] at h
      simp [natMaxAux, hb]
      rcases List.mem_cons.mp h with h' | h'
      · exact Or.inr (Or.inl h')
      · exact Or.inr (Or.inr h')
    · simp only [hb, if_false] at h
      simp [natMaxAux, hb]
      rcases List.mem_cons.mp h with h' | h'
      · exact Or.inl h'
      · exact Or.inr (Or.inr h')

theorem natMaxAux_base : ∀ (ls : List Nat) (n : Nat), n ≤ natMaxAux n ls := by
  intro ls
  induction ls with
  | nil => intro n; simp [natMaxAux]
  | cons m ms ih =>
    intro n
    by_cases hb : n < m
    · have hstep : natMaxAux n (m :: ms) = natMaxAux m ms := by simp [natMaxAux, hb]
      rw [hstep]
      have := ih m
      omega
    · have hstep : natMaxAux n (m :: ms) = natMaxAux n ms := by simp [natMaxAux, hb]
      rw [hstep]
      exact ih n

theorem natMaxAux_ge : ∀ (ls : List Nat) (n k : Nat), k ∈ n :: ls → k ≤ natMaxAux n ls := by
  intro ls
  induction ls with
  | nil =>
    intro n k hk
    have h' : k = n := by simpa using hk
    subst h'
    simp [natMaxAux]
  | cons m ms ih =>
    intro n k hk
    by_cases hb : n < m
    · have hstep : natMaxAux n (m :: ms) = natMaxAux m ms := by simp [natMaxAux, hb]
      rw [hstep]
      rcases List.mem_cons.mp hk with h' | h'
      · have hbase := natMaxAux_base ms m
        omega
      · exact ih m k h'
    · have hstep : natMaxAux n (m :: ms) = natMaxAux n ms := by simp [natMaxAux, hb]
      rw [hstep]
      rcases List.mem_cons.mp hk with h' | h'
      · subst h'
        exact natMaxAux_base ms k
      · rcases List.mem_cons.mp h' with h'' | h''
        · have hbase := natMaxAux_base ms n
          omega
        · exact ih n k (by simp [h''])

theorem natMaxAux_eq (ls : List Nat) (n k : Nat) (hmem : k ∈ n :: ls)
    (hub : ∀ m ∈ n :: ls, m ≤ k) : natMaxAux n ls = k :=
  Nat.le_antisymm (hub _ (natMaxAux_mem ls n)) (natMaxAux_ge ls n k hmem)

theorem mem_groupMaxCno {rows : List Car} {c : Car} (hc : c ∈ rows)
    (hmax : ∀ c₂ ∈ rows, c₂.c_carnum = c.c_carnum → c₂.c_no ≤ c.c_no) :
    c.c_no ∈ groupMaxCno rows := by
  unfold groupMaxCno
  apply List.mem_filterMap.mpr
  refine ⟨c, hc, ?_⟩
  have hcg : c.c_no ∈ (rows.filter (fun x => decide (x.c_carnum = c.c_carnum))).map
      (fun x => x.c_no) := by
    apply List.mem_map.mpr
    exact ⟨c, List.mem_filter.mpr ⟨hc, by simp⟩, rfl⟩
  rcases hG : (rows.filter (fun x => decide (x.c_carnum = c.c_carnum))).map
      (fun x => x.c_no) with _ | ⟨n, ns⟩
  · rw [hG] at hcg
    cases hcg
  · rw [hG] at hcg
    have hub : ∀ m ∈ n :: ns, m ≤ c.c_no := by
      intro m hm
      have hm' : m ∈ (rows.filter (fun x => decide (x.c_carnum = c.c_carnum))).map
          (fun x => x.c_no) := by rw [hG]; exact hm
      rcases List.mem_map.mp hm' with ⟨x, hx, rfl⟩
      rcases List.mem_filter.mp hx with ⟨hxrows, hxeq⟩
      exact hmax x hxrows (by simpa using hxeq)
    rw [hG]
    simp only [Option.some.injEq]
    exact natMaxAux_eq ns n c.c_no hcg hub

theorem groupMaxCno_attained {rows : List Car} {v : Nat} (hv : v ∈ groupMaxCno rows) :
    ∃ crow, crow ∈ rows ∧ crow.c_no = v
      ∧ ∀ c₂ ∈ rows, c₂.c_carnum = crow.c_carnum → c₂.c_no ≤ v := by
  unfold groupMaxCno at hv
  rcases List.mem_filterMap.mp hv with ⟨c₀, hc₀, hf⟩
  rcases hG : (rows.filter (fun x => decide (x.c_carnum = c₀.c_carnum))).map
      (fun x => x.c_no) with _ | ⟨n, ns⟩
  · rw [hG] at hf
    simp at hf
  · rw [hG] at hf
    simp only [Option.some.injEq] at hf
    have hvmem : v ∈ n :: ns := by rw [← hf]; exact natMaxAux_mem ns n
    have hvmem' : v ∈ (rows.filter (fun x => decide (x.c_carnum = c₀.c_carnum))).map
        (fun x => x.c_no) := by rw [hG]; exact hvmem
    rcases List.mem_map.mp hvmem' with ⟨crow, hcrow, hcrowv⟩
    rcases List.mem_filter.mp hcrow with ⟨hcrowrows, hcroweq⟩
    refine ⟨crow, hcrowrows, hcrowv, ?_⟩
    intro c₂ h2 heq
    have hcrownum : crow.c_carnum = c₀.c_carnum := by simpa using hcroweq
    have h2' : c₂.c_no ∈ (rows.filter (fun x => decide (x.c_carnum = c₀.c_carnum))).map
        (fun x => x.c_no) := by
      apply List.mem_map.mpr
      exact ⟨c₂, List.mem_filter.mpr ⟨h2, by simp [heq, hcrownum]⟩, rfl⟩
    rw [hG] at h2'
    have := natMaxAux_ge ns n c₂.c_no h2'
    omega

theorem mapFind_replace_same :
    ∀ (m : List (String × RestStatus)) (k : String) (v : RestStatus),
      m.any (fun p => decide (p.1 = k)) = true →
      mapFind (m.map (fun p => if decide (p.1 = k) then (k, v) else p)) k = some v := by
  intro m
  induction m with
  | nil => intro k v h; simp at h
  | cons x xs ih =>
    intro k v h
    by_cases hx : x.1 = k
    · simp only [List.map_cons]
      rw [show (if decide (x.1 = k) then (k, v) else x) = (k, v) from by simp [hx]]
      simp [mapFind]
    · have h' : xs.any (fun p => decide (p.1 = k)) = true := by
        simpa [List.any_cons, hx] using h
      simp only [List.map_cons]
      rw [show (if decide (x.1 = k) then (k, v) else x) = x from by simp [hx]]
      simp only [mapFind, hx, if_false]
      exact ih k v h'

theorem mapFind_append_same :
    ∀ (m : List (String × RestStatus)) (k : String) (v : RestStatus),
      m.any (fun p => decide (p.1 = k)) = false →
      mapFind (m ++ [(k, v)]) k = some v := by
  intro m
  induction m with
  | nil => intro k v _; simp [mapFind]
  | cons x xs ih =>
    intro k v h
    have h2 : decide (x.1 = k) = false ∧ xs.any (fun p => decide (p.1 = k)) = false := by
      simpa [List.any_cons] using h
    have hx : ¬ (x.1 = k) := by simpa using h2.1
    simp only [List.cons_append, mapFind, hx, if_false]
    exact ih k v h2.2

theorem mapFind_mapSet_same (m : List (String × RestStatus)) (k : String) (v : RestStatus) :
    mapFind (mapSet m k v) k = some v := by
  unfold mapSet
  by_cases h : m.any (fun p => decide (p.1 = k)) = true
  · rw [if_pos h]
    exact mapFind_replace_same m k v h
  · have h' : m.any (fun p => decide (p.1 = k)) = false := by
      cases hb : m.any (fun p => decide (p.1 = k)) with
      | false => rfl
      | true => exact absurd hb h
    rw [if_neg h]
    exact mapFind_append_same m k v h'

theorem mapFind_mapSet_other (m : List (String × RestStatus)) (k : String) (v : RestStatus)
    (k' : String) (h : k' ≠ k) :
    mapFind (mapSet m k v) k' = mapFind m k' := by
  unfold mapSet
  by_cases hm : m.any (fun p => decide (p.1 = k)) = true
  · rw [if_pos hm]
    clear hm
    induction m with
    | nil => rfl
    | cons x xs ih =>
      simp only [List.map_cons]
      by_cases hx : x.1 = k
      · rw [show (if decide (x.1 = k) then (k, v) else x) = (k, v) from by simp [hx]]
        simp only [mapFind]
        rw [if_neg (fun hc => h hc.symm), if_neg (fun hc : x.1 = k' => h (hc ▸ hx))]
        exact ih
      · rw [show (if decide (x.1 = k) then (k, v) else x) = x from by simp [hx]]
        simp only [mapFind]
        by_cases hx' : x.1 = k'
        · rw [if_pos hx', if_pos hx']
        · rw [if_neg hx', if_neg hx']
          exact ih
  · rw [if_neg hm]
    clear hm
    induction m with
    | nil =>
      simp only [List.nil_append, mapFind]
      rw [if_neg (fun hc => h hc.symm)]
    | cons x xs ih =>
      simp only [List.cons_append, mapFind]
      by_cases hx' : x.1 = k'
      · rw [if_pos hx', if_pos hx']
      · rw [if_neg hx', if_neg hx']
        exact ih

theorem carNumOf_some {cars : List Car} {cno : Nat} {s : String}
    (h : carNumOf cars cno = some s) :
    ∃ c ∈ cars, c.c_no = cno ∧ c.c_carnum = s := by
  unfold carNumOf at h
  rcases hfind : cars.find? (fun c => decide (c.c_no = cno)) with _ | c
  · rw [hfind] at h
    cases h
  · rw [hfind] at h
    simp only [Option.map_some', Option.some.injEq] at h
    have hmem := List.mem_of_find?_eq_some hfind
    have hpred := List.find?_some hfind
    simp only [decide_eq_true_eq] at hpred
    exact ⟨c, hmem, hpred, h⟩

theorem restFold_find_none (cars : List Car) (failed : List Nat) (p : String) :
    ∀ (rests : List RestRow) (m : List (String × RestStatus)),
      (∀ r ∈ rests, carNumOf cars r.r_c_no ≠ some p) →
      mapFind m p = Option.none →
      mapFind (rests.foldl (restStep cars failed) m) p = Option.none := by
  intro rests
  induction rests with
  | nil => intro m _ hm; simpa using hm
  | cons r rs ih =>
    intro m hall hm
    simp only [List.foldl_cons]
    rcases hcn : carNumOf cars r.r_c_no with _ | cn
    · rw [show restStep cars failed m r = m from by simp [restStep, hcn]]
      exact ih m (fun r' hr' => hall r' (by simp [hr'])) hm
    · have hcnp : cn ≠ p := by
        intro hcontra
        exact hall r (by simp) (by rw [hcn, hcontra])
      rw [show restStep cars failed m r = mapSet m cn
          { statusCode := r.r_status_cd
            category := categorizeStatus r.r_status_cd
            hasFail := decide (r.r_no ∈ failed) } from by simp [restStep, hcn]]
      have hm' : mapFind (mapSet m cn
          { statusCode := r.r_status_cd
            category := categorizeStatus r.r_status_cd
            hasFail := decide (r.r_no ∈ failed) }) p = Option.none := by
        rw [mapFind_mapSet_other _ _ _ _ (fun hc => hcnp hc.symm)]
        exact hm
      exact ih _ (fun r' hr' => hall r' (by simp [hr'])) hm'

theorem carsFold_preserve (p : String) (v : RestStatus) :
    ∀ (cars : List Car) (m : List (String × RestStatus)),
      mapFind m p = some v →
      mapFind (cars.foldl carStep m) p = some v := by
  intro cars
  induction cars with
  | nil => intro m hm; simpa using hm
  | cons c cs ih =>
    intro m hm
    simp only [List.foldl_cons]
    by_cases hs : (mapFind m c.c_carnum).isSome = true
    · rw [show carStep m c = m from by simp [carStep, hs]]
      exact ih m hm
    · by_cases hc : c.c_carnum = p
      · exfalso
        apply hs
        rw [hc, hm]
        rfl
      · rw [show carStep m c = mapSet m c.c_carnum noRecordEntry from by simp [carStep, hs]]
        have hm' : mapFind (mapSet m c.c_carnum noRecordEntry) p = some v := by
          rw [mapFind_mapSet_other _ _ _ _ (fun hcc => hc hcc.symm)]
          exact hm
        exact ih _ hm'

theorem carsFold_sets (p : String) :
    ∀ (cars : List Car) (m : List (String × RestStatus)),
      mapFind m p = Option.none → (∃ c ∈ cars, c.c_carnum = p) →
      mapFind (cars.foldl carStep m) p = some noRecordEntry := by
  intro cars
  induction cars with
  | nil =>
    intro m _ hex
    rcases hex with ⟨c, hc, _⟩
    cases hc
  | cons c cs ih =>
    intro m hm hex
    simp only [List.foldl_cons]
    by_cases hc : c.c_carnum = p
    · have hs : (mapFind m c.c_carnum).isSome = false := by
        rw [hc, hm]
        rfl
      rw [show carStep m c = mapSet m c.c_carnum noRecordEntry from by simp [carStep, hs]]
      have hset : mapFind (mapSet m c.c_carnum noRecordEntry) p = some noRecordEntry := by
        rw [hc]
        exact mapFind_mapSet_same _ _ _
      exact carsFold_preserve p noRecordEntry cs _ hset
    · rcases hex with ⟨c', hc', hc'p⟩
      have hmem : c' ∈ cs := by
        rcases List.mem_cons.mp hc' with h' | h'
        · exfalso
          apply hc
          rw [← h']
          exact hc'p
        · exact h'
      by_cases hs : (mapFind m c.c_carnum).isSome = true
      · rw [show carStep m c = m from by simp [carStep, hs]]
        exact ih m hm ⟨c', hmem, hc'p⟩
      · rw [show carStep m c = mapSet m c.c_carnum noRecordEntry from by simp [carStep, hs]]
        have hm' : mapFind (mapSet m c.c_carnum noRecordEntry) p = Option.none := by
          rw [mapFind_mapSet_other _ _ _ _ (fun hcc => hc hcc.symm)]
          exact hm
        exact ih _ hm' ⟨c', hmem, hc'p⟩

theorem carsFold_none (p : String) :
    ∀ (cars : List Car) (m : List (String × RestStatus)),
      mapFind m p = Option.none → (∀ c ∈ cars, c.c_carnum ≠ p) →
      mapFind (cars.foldl carStep m) p = Option.none := by
  intro cars
  induction cars with
  | nil => intro m hm _; simpa using hm
  | cons c cs ih =>
    intro m hm hall
    simp only [List.foldl_cons]
    have hc : c.c_carnum ≠ p := hall c (by simp)
    by_cases hs : (mapFind m c.c_carnum).isSome = true
    · rw [show carStep m c = m from by simp [carStep, hs]]
      exact ih m hm (fun c' hc' => hall c' (by simp [hc']))
    · rw [show carStep m c = mapSet m c.c_carnum noRecordEntry from by simp [carStep, hs]]
      have hm' : mapFind (mapSet m c.c_carnum noRecordEntry) p = Option.none := by
        rw [mapFind_mapSet_other _ _ _ _ (fun hcc => hc hcc.symm)]
        exact hm
      exact ih _ hm' (fun c' hc' => hall c' (by simp [hc']))

theorem selectedCars_sub (db : CpmDb) (carNums : List String) :
    ∀ c ∈ selectedCars db carNums,
      c ∈ db.cars ∧ c.c_carnum ∈ carNums ∧ c.deleted = false := by
  intro c hc
  rcases List.mem_filter.mp hc with ⟨hcand, _⟩
  rcases List.mem_filter.mp hcand with ⟨hcars, hpred⟩
  simp only [Bool.and_eq_true, decide_eq_true_eq, Bool.not_eq_true'] at hpred
  exact ⟨hcars, hpred.1, hpred.2⟩

theorem selectedCars_mem (db : CpmDb) (carNums : List String) (p : String) (c : Car)
    (hp : p ∈ carNums) (hcmem : c ∈ db.cars) (hcp : c.c_carnum = p)
    (hcdel : c.deleted = false)
    (hcmax : ∀ c₂ ∈ db.cars, c₂.c_carnum = p → c₂.deleted = false → c₂.c_no ≤ c.c_no) :
    c ∈ selectedCars db carNums := by
  have hcand : c ∈ carCandidates db carNums := by
    apply List.mem_filter.mpr
    refine ⟨hcmem, ?_⟩
    simp [hcp, hp, hcdel]
  apply List.mem_filter.mpr
  refine ⟨hcand, ?_⟩
  simp only [decide_eq_true_eq]
  apply mem_groupMaxCno hcand
  intro c₂ h2 heq
  rcases List.mem_filter.mp h2 with ⟨h2cars, h2pred⟩
  simp only [Bool.and_eq_true, decide_eq_true_eq, Bool.not_eq_true'] at h2pred
  exact hcmax c₂ h2cars (by rw [heq, hcp]) h2pred.2

theorem selectedCars_unique (db : CpmDb) (carNums : List String) (p : String) (c : Car)
    (hnodup : (db.cars.map (fun x => x.c_no)).Nodup)
    (hp : p ∈ carNums) (hcmem : c ∈ db.cars) (hcp : c.c_carnum = p)
    (hcdel : c.deleted = false)
    (hcmax : ∀ c₂ ∈ db.cars, c₂.c_carnum = p → c₂.deleted = false → c₂.c_no ≤ c.c_no) :
    ∀ c' ∈ selectedCars db carNums, c'.c_carnum = p → c' = c := by
  intro c' hc' hc'p
  rcases List.mem_filter.mp hc' with ⟨hc'cand, hc'max⟩
  simp only [decide_eq_true_eq] at hc'max
  rcases groupMaxCno_attained hc'max with ⟨crow, hcrowmem, hcrowno, hcrowbound⟩
  have hc'cars : c' ∈ db.cars := (List.mem_filter.mp hc'cand).1
  have hcrowcars : crow ∈ db.cars := (List.mem_filter.mp hcrowmem).1
  have heq1 : crow = c' := List.inj_on_of_nodup_map hnodup hcrowcars hc'cars hcrowno
  have hc'bound : ∀ c₂ ∈ carCandidates db carNums,
      c₂.c_carnum = c'.c_carnum → c₂.c_no ≤ c'.c_no := by
    intro c₂ h2 he
    exact hcrowbound c₂ h2 (by rw [he, ← heq1])
  have hccand : c ∈ carCandidates db carNums := by
    apply List.mem_filter.mpr
    exact ⟨hcmem, by simp [hcp, hp, hcdel]⟩
  have h1 : c.c_no ≤ c'.c_no := hc'bound c hccand (by rw [hcp, hc'p])
  have hc'pred := (List.mem_filter.mp hc'cand).2
  simp only [Bool.and_eq_true, decide_eq_true_eq, Bool.not_eq_true'] at hc'pred
  have h2 : c'.c_no ≤ c.c_no := hcmax c' hc'cars hc'p hc'pred.2
  exact List.inj_on_of_nodup_map hnodup hc'cars hcmem (Nat.le_antisymm h2 h1)

/-- C7: the batch resolver distinguishes the two absence cases.  Assuming the
`car` primary key is unique, for a requested plate `p`: if every car row with
plate `p` is deleted (no vehicle identity), `p` is absent from the returned
map; if `p` resolves to a vehicle identity (its latest non-deleted car row)
that has no restoration row, the map holds the explicit "no product-status
record" entry (null statusCode, category `none`, `hasFail` false). -/
theorem resolver_absence_cases (db : CpmDb) (carNums : List String) (p : String)
    (hnodup : (db.cars.map (fun x => x.c_no)).Nodup)
    (hp : p ∈ carNums) :
    ((∀ c ∈ db.cars, c.c_carnum = p → c.deleted = true) →
      mapFind (getRestorationStatusForVehicles db carNums) p = Option.none)
    ∧ (∀ c ∈ db.cars, c.c_carnum = p → c.deleted = false →
        (∀ c₂ ∈ db.cars, c₂.c_carnum = p → c₂.deleted = false → c₂.c_no ≤ c.c_no) →
        (∀ r ∈ db.restorations, r.r_c_no ≠ c.c_no) →
        mapFind (getRestorationStatusForVehicles db carNums) p = some noRecordEntry) := by
  have hne : carNums.isEmpty = false := by
    cases carNums with
    | nil => cases hp
    | cons a as => rfl
  constructor
  · intro hdel
    have hno : ∀ c' ∈ selectedCars db carNums, c'.c_carnum ≠ p := by
      intro c' hc' hcp
      rcases selectedCars_sub db carNums c' hc' with ⟨hcars, _, hdelf⟩
      have hd := hdel c' hcars hcp
      rw [hd] at hdelf
      cases hdelf
    by_cases hce : (selectedCars db carNums).isEmpty
    · simp [getRestorationStatusForVehicles, getRestorationStatusForVehiclesF, hne, hce, mapFind]
    · simp only [getRestorationStatusForVehicles, getRestorationStatusForVehiclesF, hne,
        Bool.false_eq_true, if_false, hce, reduceCtorEq]
      simp only [false_and, if_false]
      apply carsFold_none p
      · apply restFold_find_none
        · intro r hr hcn
          rcases carNumOf_some hcn with ⟨c', hc'sel, _, hc'num⟩
          exact hno c' hc'sel hc'num
        · rfl
      · intro c' hc'
        exact hno c' hc'
  · intro c hcmem hcp hcdel hcmax hnorest
    have hcsel : c ∈ selectedCars db carNums :=
      selectedCars_mem db carNums p c hp hcmem hcp hcdel hcmax
    have hce : (selectedCars db carNums).isEmpty = false := by
      cases hsel : selectedCars db carNums with
      | nil => rw [hsel] at hcsel; cases hcsel
      | cons a as => rfl
    have huniq := selectedCars_unique db carNums p c hnodup hp hcmem hcp hcdel hcmax
    simp only [getRestorationStatusForVehicles, getRestorationStatusForVehiclesF, hne,
      Bool.false_eq_true, if_false, hce, reduceCtorEq]
    simp only [false_and, if_false]
    apply carsFold_sets p
    · apply restFold_find_none
      · intro r hr hcn
        rcases carNumOf_some hcn with ⟨c', hc'sel, hc'no, hc'num⟩
        have hcc : c' = c := huniq c' hc'sel hc'num
        have hrdb : r ∈ db.restorations := by
          rcases List.mem_filter.mp hr with ⟨hrcand, _⟩
          exact (List.mem_filter.mp hrcand).1
        apply hnorest r hrdb
        rw [← hc'no, hcc]
      · rfl
    · exact ⟨c, hcsel, hcp⟩

theorem resolver_absence_cases_witness :
    mapFind (getRestorationStatusForVehicles
        ⟨[⟨1, "11가1111", false⟩, ⟨2, "22나2222", false⟩], [⟨5, 2, some "WORKING"⟩], []⟩
        ["11가1111", "33다3333"]) "11가1111" = some noRecordEntry
    ∧ mapFind (getRestorationStatusForVehicles
        ⟨[⟨1, "11가1111", false⟩, ⟨2, "22나2222", false⟩], [⟨5, 2, some "WORKING"⟩], []⟩
        ["11가1111", "33다3333"]) "33다3333" = Option.none := by
  constructor
  · exact (resolver_absence_cases
      ⟨[⟨1, "11가1111", false⟩, ⟨2, "22나2222", false⟩], [⟨5, 2, some "WORKING"⟩], []⟩
      ["11가1111", "33다3333"] "11가1111" (by decide) (by decide)).2
      ⟨1, "11가1111", false⟩ (by decide) rfl rfl (by decide) (by decide)
  · exact (resolver_absence_cases
      ⟨[⟨1, "11가1111", false⟩, ⟨2, "22나2222", false⟩], [⟨5, 2, some "WORKING"⟩], []⟩
      ["11가1111", "33다3333"] "33다3333" (by decide) (by decide)).1 (by decide)

end HwasungParking
